import Mathlib

/-! Verification development for the ships CLI core (titanic.py):
record model, grouping and ranking (analyze_traffic_data_by), fuzzy-search
filtering (search_ship_by_name over process.extract), command validation
(get_valid_action) and the dispatch loop (main). Python dicts are modelled
as association lists in insertion order, Python sets of strings as
deduplicated lists, and printed output as lists of printed lines. -/

namespace Titanic

/-- One ship-traffic record: the six required fields of the dataset, named
after the source key constants COUNTRY, TYPE_SUMMARY, SHIPNAME, SPEED, LON,
LAT. Numeric fields are stored as text, as in the source. -/
structure Record where
  country : String
  type_summary : String
  shipname : String
  speed : String
  lon : String
  lat : String
  deriving DecidableEq

/-- The closed set of grouping keys used by the source. -/
inductive FieldKey
  | country
  | type_summary
  | shipname
  | speed
  | lon
  | lat
  deriving DecidableEq

/-- Key lookup on a record, modelling the subscript ship[by_key]. -/
def Record.get (r : Record) : FieldKey → String
  | .country => r.country
  | .type_summary => r.type_summary
  | .shipname => r.shipname
  | .speed => r.speed
  | .lon => r.lon
  | .lat => r.lat

/-- First-encounter deduplication: keeps the first occurrence of each value,
in the order values first appear. This is the key order of a Python dict
built by insertion, and the content of a Python set built by insertion when
a set is modelled as a deduplicated list. -/
def encounterOrder {α : Type} [DecidableEq α] (l : List α) : List α :=
  l.foldl (fun acc v => if v ∈ acc then acc else acc ++ [v]) []

theorem encounterOrder_append {α : Type} [DecidableEq α] (l : List α) (a : α) :
    encounterOrder (l ++ [a]) =
      if a ∈ encounterOrder l then encounterOrder l else encounterOrder l ++ [a] := by
  simp [encounterOrder, List.foldl_append]

theorem encounterOrder_mem_aux {α : Type} [DecidableEq α] (l : List α) (acc : List α) (x : α) :
    x ∈ l.foldl (fun acc v => if v ∈ acc then acc else acc ++ [v]) acc ↔ x ∈ acc ∨ x ∈ l := by
  induction l generalizing acc with
  | nil => simp
  | cons v l ih =>
    simp only [List.foldl_cons, ih]
    by_cases hv : v ∈ acc
    · rw [if_pos hv]
      constructor
      · rintro (h | h)
        · exact Or.inl h
        · exact Or.inr (List.mem_cons_of_mem v h)
      · rintro (h | h)
        · exact Or.inl h
        · rcases List.mem_cons.mp h with h | h
          · exact Or.inl (h ▸ hv)
          · exact Or.inr h
    · rw [if_neg hv]
      constructor
      · rintro (h | h)
        · rcases List.mem_append.mp h with h | h
          · exact Or.inl h
          · exact Or.inr (List.mem_cons.mpr (Or.inl (List.mem_singleton.mp h)))
        · exact Or.inr (List.mem_cons_of_mem v h)
      · rintro (h | h)
        · exact Or.inl (List.mem_append.mpr (Or.inl h))
        · rcases List.mem_cons.mp h with h | h
          · exact Or.inl (List.mem_append.mpr (Or.inr (List.mem_singleton.mpr h)))
          · exact Or.inr h

theorem encounterOrder_mem {α : Type} [DecidableEq α] (l : List α) (x : α) :
    x ∈ encounterOrder l ↔ x ∈ l := by
  rw [encounterOrder, encounterOrder_mem_aux]
  simp

theorem encounterOrder_nodup_aux {α : Type} [DecidableEq α] (l : List α) (acc : List α)
    (hacc : acc.Nodup) :
    (l.foldl (fun acc v => if v ∈ acc then acc else acc ++ [v]) acc).Nodup := by
  induction l generalizing acc with
  | nil => exact hacc
  | cons v l ih =>
    simp only [List.foldl_cons]
    by_cases hv : v ∈ acc
    · rw [if_pos hv]; exact ih acc hacc
    · rw [if_neg hv]
      refine ih _ ?_
      simp [List.nodup_append, hacc, hv]

theorem encounterOrder_nodup {α : Type} [DecidableEq α] (l : List α) :
    (encounterOrder l).Nodup :=
  encounterOrder_nodup_aux l [] List.nodup_nil

/-- Models set.add on a Python set of strings represented as a deduplicated
list: appends the name unless it is already present. -/
def addToGroup (name : String) (g : List String) : List String :=
  if name ∈ g then g else g ++ [name]

/-- One iteration of the grouping loop of analyze_traffic_data_by: if the key
already has an entry, add the ship name to its set; otherwise create the
entry with a one-element set (dict insertion appends the new key last). -/
def addShip (key name : String) : List (String × List String) → List (String × List String)
  | [] => [(key, [name])]
  | (k, g) :: rest =>
      if k = key then (k, addToGroup name g) :: rest else (k, g) :: addShip key name rest

/-- Stable insertion into a list sorted by descending numeric key. -/
def insertByDesc {α : Type} (key : α → Nat) (x : α) : List α → List α
  | [] => [x]
  | y :: ys => if key y ≤ key x then x :: y :: ys else y :: insertByDesc key x ys

/-- Stable sort by descending numeric key, modelling (extensionally) the
Python call sorted(items, key=..., reverse=True), which is a stable sort. -/
def sortByDesc {α : Type} (key : α → Nat) (l : List α) : List α :=
  l.foldr (insertByDesc key) []

/-- Shallow embedding of analyze_traffic_data_by from titanic.py: fold the
records into a dict (association list in insertion order) from field value
to the set (deduplicated list) of ship names; when is_sorted is true,
return the items sorted by descending set size (stable sort). -/
def analyze_traffic_data_by (traffic_data : List Record) (by_key : FieldKey)
    (is_sorted : Bool := false) : List (String × List String) :=
  let analyzed := traffic_data.foldl (fun acc r => addShip (r.get by_key) r.shipname acc) []
  if is_sorted then sortByDesc (fun p => p.2.length) analyzed else analyzed

/-- Specification-side description of one group: the distinct ship names of
the records carrying field value v, in first-record order. -/
def groupFor (d : List Record) (k : FieldKey) (v : String) : List String :=
  encounterOrder ((d.filter (fun r => decide (r.get k = v))).map Record.shipname)

theorem addShip_map_of_mem (vs : List String) (G : String → List String) (key name : String)
    (hnd : vs.Nodup) (hk : key ∈ vs) :
    addShip key name (vs.map fun v => (v, G v)) =
      vs.map fun v => (v, if v = key then addToGroup name (G v) else G v) := by
  induction vs with
  | nil => simp at hk
  | cons v vs ih =>
    simp only [List.map_cons, addShip]
    rcases List.nodup_cons.mp hnd with ⟨hv, hnd'⟩
    by_cases h : v = key
    · subst h
      rw [if_pos rfl, if_pos rfl]
      congr 1
      apply List.map_congr_left
      intro a ha
      have : a ≠ v := fun hav => hv (hav ▸ ha)
      rw [if_neg this]
    · rw [if_neg h, if_neg h]
      have hk' : key ∈ vs := by
        rcases List.mem_cons.mp hk with h' | h'
        · exact absurd h'.symm h
        · exact h'
      rw [ih hnd' hk']

theorem addShip_map_of_not_mem (vs : List String) (G : String → List String) (key name : String)
    (hk : key ∉ vs) :
    addShip key name (vs.map fun v => (v, G v)) =
      (vs.map fun v => (v, G v)) ++ [(key, [name])] := by
  induction vs with
  | nil => rfl
  | cons v vs ih =>
    simp only [List.map_cons, addShip]
    have hne : v ≠ key := fun h => hk (List.mem_cons.mpr (Or.inl h.symm))
    rw [if_neg hne, ih (fun h => hk (List.mem_cons_of_mem v h))]
    rfl

/-- Complete characterisation of the unsorted grouping: its keys are the
field values in first-encounter order, each mapped to the distinct ship
names of the records carrying that value. -/
theorem analyze_eq (d : List Record) (k : FieldKey) :
    analyze_traffic_data_by d k false =
      (encounterOrder (d.map fun r => r.get k)).map fun v => (v, groupFor d k v) := by
  induction d using List.reverseRecOn with
  | nil => rfl
  | append_singleton d r ih =>
    have hstep : analyze_traffic_data_by (d ++ [r]) k false
        = addShip (r.get k) r.shipname (analyze_traffic_data_by d k false) := by
      simp [analyze_traffic_data_by, List.foldl_append]
    have hkeys : encounterOrder ((d ++ [r]).map fun r' => r'.get k)
        = if r.get k ∈ encounterOrder (d.map fun r' => r'.get k)
          then encounterOrder (d.map fun r' => r'.get k)
          else encounterOrder (d.map fun r' => r'.get k) ++ [r.get k] := by
      rw [List.map_append]
      exact encounterOrder_append _ _
    have hgroup : ∀ v, groupFor (d ++ [r]) k v
        = if v = r.get k then addToGroup r.shipname (groupFor d k v) else groupFor d k v := by
      intro v
      unfold groupFor
      rw [List.filter_append]
      by_cases hv : r.get k = v
      · have : List.filter (fun r' => decide (r'.get k = v)) [r] = [r] := by
          simp [List.filter, hv]
        rw [this, if_pos hv.symm, List.map_append]
        simpa [addToGroup] using encounterOrder_append
          ((d.filter (fun r' => decide (r'.get k = v))).map Record.shipname) r.shipname
      · have : List.filter (fun r' => decide (r'.get k = v)) [r] = [] := by
          simp [List.filter, hv]
        rw [this, List.append_nil, if_neg (fun h => hv h.symm)]
    rw [hstep, ih, hkeys]
    by_cases hmem : r.get k ∈ encounterOrder (d.map fun r' => r'.get k)
    · rw [if_pos hmem]
      rw [addShip_map_of_mem _ _ _ _ (encounterOrder_nodup _) hmem]
      apply List.map_congr_left
      intro v hv
      exact congrArg (Prod.mk v) (hgroup v).symm
    · rw [if_neg hmem]
      rw [addShip_map_of_not_mem _ _ _ _ hmem]
      rw [List.map_append]
      congr 1
      · apply List.map_congr_left
        intro v hv
        have hne : v ≠ r.get k := fun h => hmem (h ▸ hv)
        exact congrArg (Prod.mk v) ((hgroup v).trans (if_neg hne)).symm
      · have hdnone : groupFor d k (r.get k) = [] := by
          unfold groupFor
          have : d.filter (fun r' => decide (r'.get k = r.get k)) = [] := by
            rw [List.filter_eq_nil_iff]
            intro a ha
            have : r.get k ∉ d.map fun r' => r'.get k := by
              intro hc
              exact hmem ((encounterOrder_mem _ _).mpr hc)
            simp only [decide_eq_true_eq]
            intro hak
            exact this (List.mem_map.mpr ⟨a, ha, hak⟩)
          rw [this]
          rfl
        have := hgroup (r.get k)
        rw [if_pos rfl, hdnone] at this
        simp only [List.map_cons, List.map_nil]
        rw [this]
        rfl

theorem analyze_keys (d : List Record) (k : FieldKey) :
    (analyze_traffic_data_by d k false).map Prod.fst
      = encounterOrder (d.map fun r => r.get k) := by
  rw [analyze_eq, List.map_map]
  exact List.map_id _

theorem analyze_sorted_eq (d : List Record) (k : FieldKey) :
    analyze_traffic_data_by d k true
      = sortByDesc (fun p => p.2.length) (analyze_traffic_data_by d k false) := rfl

theorem groupFor_mem (d : List Record) (k : FieldKey) (v s : String) :
    s ∈ groupFor d k v ↔ ∃ r ∈ d, r.get k = v ∧ r.shipname = s := by
  unfold groupFor
  rw [encounterOrder_mem]
  simp [List.mem_filter, and_assoc]

theorem groupFor_nodup (d : List Record) (k : FieldKey) (v : String) :
    (groupFor d k v).Nodup :=
  encounterOrder_nodup _

theorem analyze_mem_group (d : List Record) (k : FieldKey) (v : String) (g : List String)
    (h : (v, g) ∈ analyze_traffic_data_by d k false) : g = groupFor d k v := by
  rw [analyze_eq] at h
  rcases List.mem_map.mp h with ⟨v', hv', heq⟩
  have h1 : v' = v := congrArg Prod.fst heq
  have h2 : groupFor d k v' = g := congrArg Prod.snd heq
  rw [← h2, h1]

theorem insertByDesc_perm {α : Type} (key : α → Nat) (x : α) (l : List α) :
    List.Perm (insertByDesc key x l) (x :: l) := by
  induction l with
  | nil => exact List.Perm.refl _
  | cons y ys ih =>
    simp only [insertByDesc]
    by_cases h : key y ≤ key x
    · rw [if_pos h]
    · rw [if_neg h]
      exact (ih.cons y).trans (List.Perm.swap x y ys)

theorem sortByDesc_perm {α : Type} (key : α → Nat) (l : List α) :
    List.Perm (sortByDesc key l) l := by
  induction l with
  | nil => exact List.Perm.refl _
  | cons x l ih =>
    exact (insertByDesc_perm key x (sortByDesc key l)).trans (ih.cons x)

theorem insertByDesc_mem {α : Type} (key : α → Nat) (x : α) (l : List α) (z : α) :
    z ∈ insertByDesc key x l ↔ z = x ∨ z ∈ l := by
  rw [(insertByDesc_perm key x l).mem_iff]
  simp

theorem insertByDesc_pairwise {α : Type} (key : α → Nat) (x : α) (l : List α)
    (h : l.Pairwise fun a b => key b ≤ key a) :
    (insertByDesc key x l).Pairwise fun a b => key b ≤ key a := by
  induction l with
  | nil => simp [insertByDesc]
  | cons y ys ih =>
    rcases List.pairwise_cons.mp h with ⟨hy, hys⟩
    simp only [insertByDesc]
    by_cases hxy : key y ≤ key x
    · rw [if_pos hxy]
      refine List.pairwise_cons.mpr ⟨?_, h⟩
      intro z hz
      rcases List.mem_cons.mp hz with h' | h'
      · exact h' ▸ hxy
      · exact (hy z h').trans hxy
    · rw [if_neg hxy]
      refine List.pairwise_cons.mpr ⟨?_, ih hys⟩
      intro z hz
      rcases (insertByDesc_mem key x ys z).mp hz with h' | h'
      · exact h' ▸ (not_le.mp hxy).le
      · exact hy z h'

theorem sortByDesc_pairwise {α : Type} (key : α → Nat) (l : List α) :
    (sortByDesc key l).Pairwise fun a b => key b ≤ key a := by
  induction l with
  | nil => simp [sortByDesc]
  | cons x l ih => exact insertByDesc_pairwise key x _ ih

theorem insertByDesc_filter {α : Type} (key : α → Nat) (x : α) (l : List α) (n : Nat) :
    (insertByDesc key x l).filter (fun a => key a == n)
      = if key x = n
        then x :: l.filter (fun a => key a == n)
        else l.filter (fun a => key a == n) := by
  induction l with
  | nil => by_cases h : key x = n <;> simp [insertByDesc, h]
  | cons y ys ih =>
    simp only [insertByDesc]
    by_cases hxy : key y ≤ key x
    · rw [if_pos hxy]
      by_cases hx : key x = n <;> by_cases hy' : key y = n <;>
        simp [List.filter_cons, hx, hy']
    · rw [if_neg hxy]
      have hlt : key x < key y := not_le.mp hxy
      by_cases hy' : key y = n
      · have hx : ¬ key x = n := by omega
        simp [List.filter_cons, hy', hx, ih]
      · by_cases hx : key x = n <;> simp [List.filter_cons, hy', hx, ih]

/-- Stability of the descending sort: the entries whose key equals any given
value keep their original relative order. -/
theorem sortByDesc_filter {α : Type} (key : α → Nat) (l : List α) (n : Nat) :
    (sortByDesc key l).filter (fun a => key a == n) = l.filter (fun a => key a == n) := by
  induction l with
  | nil => rfl
  | cons x l ih =>
    show (insertByDesc key x (sortByDesc key l)).filter _ = _
    rw [insertByDesc_filter]
    by_cases hx : key x = n <;> simp [List.filter_cons, hx, ih]

/-- Models print_iterable(iterable) with value=False: one line per item,
then the final empty line printed by the trailing print(). -/
def print_iterable (items : List String) : List String :=
  items ++ [""]

/-- Models print_iterable(iterable, value=True): one line per (key, set)
pair, formatted as the f-string with the key and the set size, then the
final empty line. -/
def print_iterable_pairs (items : List (String × List String)) : List String :=
  (items.map fun p => p.1 ++ ": " ++ Nat.repr p.2.length) ++ [""]

/-- The sorted_countries value inside get_all_countries: Python sorted over
a dict iterates its keys and sorts them; string comparison is lexicographic
by code point, as is the order on Lean strings. The library sort is
modelled extensionally by insertion sort. -/
def sorted_countries (traffic_data : List Record) : List String :=
  List.insertionSort (fun a b => a ≤ b)
    ((analyze_traffic_data_by traffic_data .country).map Prod.fst)

/-- Shallow embedding of get_all_countries: aggregate by country, sort the
keys alphabetically and print one per line. -/
def get_all_countries (traffic_data : List Record) : List String :=
  print_iterable (sorted_countries traffic_data)

/-- Shallow embedding of top_n_countries: aggregate by country with
is_sorted=True, slice the first num entries and print them with set sizes. -/
def top_n_countries (traffic_data : List Record) (num : Nat := 5) : List String :=
  print_iterable_pairs ((analyze_traffic_data_by traffic_data .country true).take num)

/-- Shallow embedding of get_all_ship_types: aggregate by type with
is_sorted=True and print all entries with set sizes. -/
def get_all_ship_types (traffic_data : List Record) : List String :=
  print_iterable_pairs (analyze_traffic_data_by traffic_data .type_summary true)

/-- The similarity threshold SEARCH_ACCURACY from titanic.py. -/
def SEARCH_ACCURACY : Nat := 85

/-- Models thefuzz process.extract(query, choices, limit=5): score every
choice against the query, return the limit best pairs (choice, score) in
descending score order; the underlying heapq.nlargest is documented as
equivalent to sorted(..., reverse=True)[:n], a stable truncated sort. The
scorer is a parameter: the spec leaves the similarity algorithm to the
library, requiring only scores in the range 0 to 100. -/
def process_extract (score : String → String → Nat) (query : String)
    (choices : List String) (limit : Nat := 5) : List (String × Nat) :=
  (sortByDesc (fun p => p.2) (choices.map fun c => (c, score query c))).take limit

/-- The set of all ship names of the dataset, modelled in first-encounter
order (Python set iteration order is unspecified; every property proved
below is independent of this choice). -/
def ship_names (traffic_data : List Record) : List String :=
  encounterOrder (traffic_data.map Record.shipname)

/-- The list comprehension inside search_ship_by_name: keep, in extract
order, the extracted names whose ratio is strictly above SEARCH_ACCURACY. -/
def search_results (score : String → String → Nat) (query : String)
    (choices : List String) : List String :=
  ((process_extract score query choices).filter fun p => decide (SEARCH_ACCURACY < p.2)).map
    Prod.fst

/-- Shallow embedding of search_ship_by_name: build the set of ship names,
filter the extraction results by the threshold, and print either the
suggestion header with the matches or the no-results message. The query is
a parameter standing for the interactive input() call. -/
def search_ship_by_name (score : String → String → Nat) (traffic_data : List Record)
    (query : String) : List String :=
  let results := search_results score query (ship_names traffic_data)
  if results.isEmpty then ["No results found"]
  else "Did you mean any of these?" :: print_iterable results

/-- The artifact produced by draw_plot_map: the map centre, one marker per
record, and the fixed output file name. Coordinates are modelled as
rationals; the claim settled over this model concerns only emptiness, not
floating-point arithmetic. -/
structure ShipMapDoc where
  center : ℚ × ℚ
  markers : List (String × ℚ × ℚ)
  savedAs : String
  deriving DecidableEq

/-- Models statistics.mean: raises StatisticsError on an empty sequence,
otherwise returns the arithmetic mean. -/
def statistics_mean : List ℚ → Except String ℚ
  | [] => Except.error "mean requires at least one data point"
  | l => Except.ok (l.sum / l.length)

/-- Shallow embedding of draw_plot_map: collect each ship location, centre
the map on the mean latitude and longitude, add one marker per record and
save as ship_map.html. The parse parameter stands for float() applied to
the stored text fields (total, per the dataset contract). -/
def draw_plot_map (parse : String → ℚ) (traffic_data : List Record) :
    Except String ShipMapDoc := do
  let locations := traffic_data.map fun r => (r.shipname, (parse r.lat, parse r.lon))
  let mean_lat ← statistics_mean (traffic_data.map fun r => parse r.lat)
  let mean_lon ← statistics_mean (traffic_data.map fun r => parse r.lon)
  pure ⟨(mean_lat, mean_lon), locations, "ship_map.html"⟩

/-- The whitespace characters stripped by Python str.strip and used as
separators by str.split (ASCII fragment; Python also treats some non-ASCII
characters as whitespace, none of which occurs in the inputs considered). -/
def isPySpace (c : Char) : Bool :=
  c == ' ' || c == '\t' || c == '\n' || c == '\r' || c == '\x0b' || c == '\x0c'

/-- Models str.strip(): drop leading and trailing whitespace. -/
def pyStrip (s : String) : String :=
  String.mk (((s.data.dropWhile isPySpace).reverse.dropWhile isPySpace).reverse)

/-- Models str.split(maxsplit=1) on a string with no leading whitespace:
the token before the first whitespace run, and the rest of the string with
the whole separating whitespace run removed. -/
def pySplitMax1 (l : List Char) : List Char × List Char :=
  (l.takeWhile (fun c => !isPySpace c),
   (l.dropWhile (fun c => !isPySpace c)).dropWhile isPySpace)

/-- Models Python str.isnumeric on one character: true for every character
of Unicode Numeric_Type Decimal, Digit or Numeric. The model is exact on
ASCII (where it coincides with isDigit) and on the listed sample of
non-decimal numeric characters; other non-ASCII numeric characters are
omitted and do not occur in the inputs considered. -/
def pyIsNumericChar (c : Char) : Bool :=
  c.isDigit || c == '½' || c == '¼' || c == '¾' || c == '²' || c == '³' || c == '¹'

/-- Models str.isnumeric(): nonempty and every character numeric. -/
def pyIsNumeric (l : List Char) : Bool :=
  !l.isEmpty && l.all pyIsNumericChar

/-- Models int() on the argument strings reachable through validation:
int succeeds exactly on (signless) strings of decimal digits; it rejects
the non-decimal numeric characters that isnumeric accepts, such as the
one-half sign. -/
def pyInt (s : String) : Except String Nat :=
  if !s.data.isEmpty && s.data.all Char.isDigit then
    Except.ok (s.data.foldl (fun n c => 10 * n + (c.toNat - 48)) 0)
  else Except.error "invalid literal for int() with base 10"

/-- The keys of DISPATCH_DICT, in their insertion order. -/
def DISPATCH_KEYS : List String :=
  ["help", "show_countries", "top_countries", "ships_by_types", "search_ship",
   "speed_histogram", "draw_map"]

/-- Shallow embedding of get_valid_action from titanic.py: returns the
lines it prints together with either the validated (action, parameter)
pair or the ValueError it raises. The branch structure follows the source:
empty input raises silently; a line that contains a space and starts with
the literal top_countries is split once and its remainder checked with
isnumeric; otherwise the trimmed text must be a registered command other
than the bare top_countries. -/
def get_valid_action (rawLine : String) : List String × Except String (String × Option String) :=
  let action := pyStrip rawLine
  if action.data.isEmpty then
    ([], Except.error "Empty input")
  else if action.data.contains ' ' && "top_countries".data.isPrefixOf action.data then
    let parts := pySplitMax1 action.data
    if pyIsNumeric parts.2 then
      ([], Except.ok (String.mk parts.1, some (String.mk parts.2)))
    else
      (["Unknown parameter " ++ String.mk parts.2], Except.error "Parameter is not integer")
  else if !(DISPATCH_KEYS.contains action) || action == "top_countries" then
    (["Unknown command " ++ action], Except.error "Command is not in dispatcher")
  else
    ([], Except.ok (action, none))

/-- The possible outcomes of one iteration of the while loop in main. -/
inductive LoopOutcome
  | handled (action : String) (num_arg : Option Nat)
  | recovered (diagnostics : List String)
  | crashed (exn : String)
  deriving DecidableEq

/-- Shallow embedding of one iteration of main: the try block wraps only
get_valid_action and catches only ValueError, after which the handler is
fetched by dict subscript (KeyError for an unregistered action escapes the
loop) and, for top_countries, the parameter is passed through int()
(ValueError from int escapes the loop, being outside the try block). -/
def main_loop_step (line : String) : LoopOutcome :=
  match get_valid_action line with
  | (out, Except.error _) => LoopOutcome.recovered out
  | (_, Except.ok (action, param)) =>
    if DISPATCH_KEYS.contains action then
      if action == "top_countries" then
        match param with
        | some p =>
          match pyInt p with
          | Except.ok n => LoopOutcome.handled action (some n)
          | Except.error _ => LoopOutcome.crashed "ValueError"
        | none => LoopOutcome.crashed "TypeError"
      else LoopOutcome.handled action none
    else LoopOutcome.crashed "KeyError"

/-- A concrete record used by the witnesses. -/
def sampleRecord (c n : String) : Record :=
  ⟨c, "Cargo", n, "10", "0", "0"⟩

/-- A concrete dataset used by the witnesses: two countries, one duplicated
record. -/
def sampleData : List Record :=
  [sampleRecord "US" "AAA", sampleRecord "UK" "BBB", sampleRecord "US" "AAA"]

/-- C1: for every dataset and every field, the grouping returned by
analyze_traffic_data_by lists its keys in the order the field values are
first encountered; each key is mapped to the set of distinct ship names of
the records carrying that value; the union of all groups is exactly the
set of distinct ship names of the dataset; the empty dataset yields the
empty grouping; and the empty string is an ordinary group key. -/
theorem claim_C1_aggregate_grouping (d : List Record) (k : FieldKey) :
    analyze_traffic_data_by ([] : List Record) k false = []
    ∧ (analyze_traffic_data_by d k false).map Prod.fst
        = encounterOrder (d.map fun r => r.get k)
    ∧ (∀ v g, (v, g) ∈ analyze_traffic_data_by d k false →
        g.Nodup ∧ ∀ s, s ∈ g ↔ ∃ r ∈ d, r.get k = v ∧ r.shipname = s)
    ∧ (∀ s, (∃ p ∈ analyze_traffic_data_by d k false, s ∈ p.2)
        ↔ ∃ r ∈ d, r.shipname = s)
    ∧ ((∃ r ∈ d, r.get k = "") → "" ∈ (analyze_traffic_data_by d k false).map Prod.fst) := by
  refine ⟨rfl, analyze_keys d k, ?_, ?_, ?_⟩
  · intro v g h
    have hg := analyze_mem_group d k v g h
    subst hg
    exact ⟨groupFor_nodup d k v, fun s => groupFor_mem d k v s⟩
  · intro s
    constructor
    · rintro ⟨⟨v, g⟩, hp, hs⟩
      have hg := analyze_mem_group d k v g hp
      subst hg
      rcases (groupFor_mem d k v s).mp hs with ⟨r, hr, _, hrs⟩
      exact ⟨r, hr, hrs⟩
    · rintro ⟨r, hr, hrs⟩
      refine ⟨(r.get k, groupFor d k (r.get k)), ?_, ?_⟩
      · rw [analyze_eq]
        exact List.mem_map.mpr
          ⟨r.get k, (encounterOrder_mem _ _).mpr (List.mem_map.mpr ⟨r, hr, rfl⟩), rfl⟩
      · exact (groupFor_mem _ _ _ _).mpr ⟨r, hr, rfl, hrs⟩
  · rintro ⟨r, hr, hke⟩
    rw [analyze_keys]
    exact (encounterOrder_mem _ _).mpr (List.mem_map.mpr ⟨r, hr, hke⟩)

/-- Witness for C1: applying the theorem to the sample dataset shows the
duplicated ship name AAA appears in some group. -/
theorem claim_C1_witness :
    ∃ p ∈ analyze_traffic_data_by sampleData .country false, "AAA" ∈ p.2 :=
  ((claim_C1_aggregate_grouping sampleData .country).2.2.2.1 "AAA").mpr (by decide)

/-- C2: the ranking returned by analyze_traffic_data_by with is_sorted=True
is the stable descending sort of the unsorted grouping by group size: it is
sorted by descending cardinality, it is a permutation of the grouping, and
for every cardinality the keys of that cardinality keep the relative order
(first-encounter order) they have in the unsorted grouping. -/
theorem claim_C2_rank_stable_desc (d : List Record) (k : FieldKey) :
    analyze_traffic_data_by d k true
        = sortByDesc (fun p => p.2.length) (analyze_traffic_data_by d k false)
    ∧ (analyze_traffic_data_by d k true).Pairwise (fun a b => b.2.length ≤ a.2.length)
    ∧ List.Perm (analyze_traffic_data_by d k true) (analyze_traffic_data_by d k false)
    ∧ ∀ n, (analyze_traffic_data_by d k true).filter (fun p => p.2.length == n)
        = (analyze_traffic_data_by d k false).filter (fun p => p.2.length == n) :=
  ⟨rfl, sortByDesc_pairwise _ _, sortByDesc_perm _ _, fun n => sortByDesc_filter _ _ n⟩

theorem process_extract_mem (score : String → String → Nat) (query : String)
    (choices : List String) (p : String × Nat)
    (hp : p ∈ process_extract score query choices 5) :
    p ∈ choices.map fun c => (c, score query c) := by
  have h1 : p ∈ sortByDesc (fun q => q.2) (choices.map fun c => (c, score query c)) :=
    List.take_subset _ _ hp
  exact (sortByDesc_perm _ _).mem_iff.mp h1

/-- A degenerate scorer giving every candidate the maximal ratio. The spec
quantifies over queries and candidate sets and leaves the similarity
algorithm to the library, so the claimed property must in particular hold
when every candidate scores above the threshold. -/
def score_always_100 : String → String → Nat := fun _ _ => 100

/-- Six distinct candidate names. -/
def six_names : List String := ["AJAX", "BORA", "CETO", "DIDO", "ECHO", "FREY"]

/-- C3 counterexample: with six distinct candidates, all of ratio 100 and
hence all strictly above the threshold, the search returns only five of
them (the default limit of process.extract), so it does not return every
candidate whose ratio is strictly greater than the threshold. -/
theorem claim_C3_counterexample :
    search_results score_always_100 "X" six_names = ["AJAX", "BORA", "CETO", "DIDO", "ECHO"]
    ∧ "FREY" ∉ search_results score_always_100 "X" six_names
    ∧ SEARCH_ACCURACY < score_always_100 "X" "FREY"
    ∧ "FREY" ∈ six_names
    ∧ six_names.Nodup := by decide

/-- C3 amended: the search returns exactly the members of the at most five
extracted best-scoring candidates (the default limit of process.extract)
whose ratio is strictly above the threshold, in descending score order;
every returned name is a candidate scoring strictly above the threshold;
at most five names are returned; and when nothing clears the threshold the
handler reports no results instead of failing. -/
theorem claim_C3_fuzzy_search (score : String → String → Nat) (d : List Record)
    (query : String) :
    search_results score query (ship_names d)
        = ((process_extract score query (ship_names d) 5).filter
            fun p => decide (SEARCH_ACCURACY < p.2)).map Prod.fst
    ∧ (search_results score query (ship_names d)).length ≤ 5
    ∧ (∀ s ∈ search_results score query (ship_names d),
        s ∈ ship_names d ∧ SEARCH_ACCURACY < score query s)
    ∧ (search_results score query (ship_names d)).Pairwise
        (fun a b => score query b ≤ score query a)
    ∧ (search_results score query (ship_names d) = [] →
        search_ship_by_name score d query = ["No results found"])
    ∧ (search_results score query (ship_names d) ≠ [] →
        search_ship_by_name score d query
          = "Did you mean any of these?" :: (search_results score query (ship_names d) ++ [""])) := by
  refine ⟨rfl, ?_, ?_, ?_, ?_, ?_⟩
  · calc (search_results score query (ship_names d)).length
        = ((process_extract score query (ship_names d) 5).filter
            fun p => decide (SEARCH_ACCURACY < p.2)).length := List.length_map _ _
      _ ≤ (process_extract score query (ship_names d) 5).length := List.length_filter_le _ _
      _ ≤ 5 := List.length_take_le _ _
  · intro s hs
    rcases List.mem_map.mp hs with ⟨p, hp, hps⟩
    rcases List.mem_filter.mp hp with ⟨hpe, hpt⟩
    rcases List.mem_map.mp (process_extract_mem score query _ p hpe) with ⟨c, hc, hcp⟩
    subst hcp
    subst hps
    exact ⟨hc, of_decide_eq_true hpt⟩
  · have h1 : (process_extract score query (ship_names d) 5).Pairwise
        (fun a b => b.2 ≤ a.2) :=
      List.Pairwise.sublist (List.take_sublist _ _) (sortByDesc_pairwise _ _)
    have h2 : ((process_extract score query (ship_names d) 5).filter
        fun p => decide (SEARCH_ACCURACY < p.2)).Pairwise (fun a b => b.2 ≤ a.2) :=
      List.Pairwise.sublist (List.filter_sublist _) h1
    have h3 : ∀ p ∈ (process_extract score query (ship_names d) 5).filter
        (fun p => decide (SEARCH_ACCURACY < p.2)), p.2 = score query p.1 := by
      intro p hp
      rcases List.mem_map.mp
        (process_extract_mem score query _ p (List.mem_filter.mp hp).1) with ⟨c, hc, hcp⟩
      subst hcp
      rfl
    refine List.pairwise_map.mpr ?_
    refine List.Pairwise.imp_of_mem ?_ h2
    intro a b ha hb hab
    rw [← h3 a ha, ← h3 b hb]
    exact hab
  · intro h
    simp [search_ship_by_name, h]
  · intro h
    simp [search_ship_by_name, print_iterable, List.isEmpty_iff, h]

/-- A scorer matching only the exact query. -/
def score_exact : String → String → Nat := fun q c => if q = c then 100 else 0

/-- Witness for C3: applying the amended theorem at a concrete scorer,
dataset and query shows the returned name is a candidate scoring above the
threshold. -/
theorem claim_C3_witness :
    "AAA" ∈ ship_names sampleData ∧ SEARCH_ACCURACY < score_exact "AAA" "AAA" :=
  (claim_C3_fuzzy_search score_exact sampleData "AAA").2.2.1 "AAA" (by decide)

/-- C9: the search handler never returns more than five names, because the
source calls process.extract without a limit argument, so the default limit
of five truncates the candidate ranking before threshold filtering. -/
theorem claim_C9_search_limit (score : String → String → Nat) (d : List Record)
    (query : String) :
    (search_results score query (ship_names d)).length ≤ 5
    ∧ (process_extract score query (ship_names d) 5).length ≤ 5 := by
  constructor
  · calc (search_results score query (ship_names d)).length
        = ((process_extract score query (ship_names d) 5).filter
            fun p => decide (SEARCH_ACCURACY < p.2)).length := List.length_map _ _
      _ ≤ (process_extract score query (ship_names d) 5).length := List.length_filter_le _ _
      _ ≤ 5 := List.length_take_le _ _
  · exact List.length_take_le _ _

/-- C4 is refuted by the code: for the input line top_countriesQ 7 the
validator succeeds with the unregistered action top_countriesQ, because
its branch guard tests startswith rather than equality of the first token;
the dict subscript in main then raises KeyError, which the loop catches
nowhere (the try block catches only ValueError around validation), so the
exception escapes the read-eval-print loop. Genuine validation failures
are recovered as the claim says: an unknown word is reported with a
diagnostic and the loop continues, and an empty line is silently
discarded. -/
theorem claim_C4_keyerror_escapes :
    main_loop_step "top_countriesQ 7" = LoopOutcome.crashed "KeyError"
    ∧ get_valid_action "top_countriesQ 7" = ([], Except.ok ("top_countriesQ", some "7"))
    ∧ ¬ DISPATCH_KEYS.contains "top_countriesQ"
    ∧ main_loop_step "xyzzy" = LoopOutcome.recovered ["Unknown command xyzzy"]
    ∧ main_loop_step "" = LoopOutcome.recovered [] :=
  ⟨by decide, rfl, by decide, by decide, by decide⟩

/-- C5: the first half of the claim holds: the bare command name
top_countries is rejected with the unknown-command diagnostic naming it,
with no fallback to the default count. The second half is refuted by the
code: the trimmed text top_countriesX 5 matches no registered command
name, yet validation succeeds with it and prints no diagnostic, because
the argument branch admits every line that contains a space and merely
starts with the literal top_countries. -/
theorem claim_C5_unknown_command :
    get_valid_action "top_countries"
        = (["Unknown command top_countries"], Except.error "Command is not in dispatcher")
    ∧ get_valid_action "top_countriesX 5" = ([], Except.ok ("top_countriesX", some "5"))
    ∧ ¬ DISPATCH_KEYS.contains "top_countriesX"
    ∧ ¬ DISPATCH_KEYS.contains "top_countriesX 5"
    ∧ main_loop_step "top_countriesX 5" = LoopOutcome.crashed "KeyError" :=
  ⟨rfl, rfl, by decide, by decide, by decide⟩

/-- C6: the digits-only half of the claim holds: a digit remainder
validates to the pair and a remainder failing isnumeric, such as abc, is
rejected with the unknown-parameter diagnostic naming it and never reaches
a handler. The exactly-when half is refuted by the code: the one-half sign
is not a decimal digit, yet isnumeric accepts it, so validation succeeds;
the handler then applies int() to it, which raises ValueError outside the
try block and the loop crashes. -/
theorem claim_C6_isnumeric :
    get_valid_action "top_countries 3" = ([], Except.ok ("top_countries", some "3"))
    ∧ main_loop_step "top_countries 3" = LoopOutcome.handled "top_countries" (some 3)
    ∧ get_valid_action "top_countries abc"
        = (["Unknown parameter abc"], Except.error "Parameter is not integer")
    ∧ main_loop_step "top_countries abc"
        = LoopOutcome.recovered ["Unknown parameter abc"]
    ∧ get_valid_action "top_countries ½" = ([], Except.ok ("top_countries", some "½"))
    ∧ ¬ "½".data.all Char.isDigit
    ∧ main_loop_step "top_countries ½" = LoopOutcome.crashed "ValueError" :=
  ⟨rfl, by decide, rfl, by decide, rfl, by decide, by decide⟩

/-- C7: top_n_countries prints exactly the first min(num, number of
distinct countries) entries of the ranked country grouping (followed by the
closing empty line of print_iterable); each printed entry pairs a country
with the size of its set of distinct ship names; the entries are in
descending size order, with equal sizes keeping first-encounter order; and
the count defaults to 5 when no value is supplied. -/
theorem claim_C7_top_countries (d : List Record) (n : Nat) :
    top_n_countries d n
        = ((analyze_traffic_data_by d .country true).take n).map
            (fun p => p.1 ++ ": " ++ Nat.repr p.2.length) ++ [""]
    ∧ ((analyze_traffic_data_by d .country true).take n).length
        = min n (encounterOrder (d.map Record.country)).length
    ∧ (∀ p ∈ (analyze_traffic_data_by d .country true).take n,
        p.2.Nodup ∧ ∀ s, s ∈ p.2 ↔ ∃ r ∈ d, r.country = p.1 ∧ r.shipname = s)
    ∧ ((analyze_traffic_data_by d .country true).take n).Pairwise
        (fun a b => b.2.length ≤ a.2.length)
    ∧ (∀ m, (analyze_traffic_data_by d .country true).filter (fun p => p.2.length == m)
        = (analyze_traffic_data_by d .country false).filter (fun p => p.2.length == m))
    ∧ top_n_countries d = top_n_countries d 5 := by
  rw [analyze_sorted_eq d .country]
  refine ⟨rfl, ?_, ?_, ?_, fun m => sortByDesc_filter _ _ m, rfl⟩
  · rw [List.length_take]
    congr 1
    calc (sortByDesc (fun p => p.2.length) (analyze_traffic_data_by d .country false)).length
        = (analyze_traffic_data_by d .country false).length := (sortByDesc_perm _ _).length_eq
      _ = ((analyze_traffic_data_by d .country false).map Prod.fst).length :=
          (List.length_map _ _).symm
      _ = (encounterOrder (d.map Record.country)).length :=
          congrArg List.length (analyze_keys d .country)
  · intro p hp
    have hp1 := List.take_subset _ _ hp
    have hp2 : p ∈ analyze_traffic_data_by d .country false :=
      (sortByDesc_perm _ _).mem_iff.mp hp1
    obtain ⟨v, g⟩ := p
    have hg := analyze_mem_group d .country v g hp2
    subst hg
    exact ⟨groupFor_nodup _ _ _, fun s => groupFor_mem d .country v s⟩
  · exact List.Pairwise.sublist (List.take_sublist _ _) (sortByDesc_pairwise _ _)

/-- Witness for C7: on the sample dataset, one entry is printed and it
shows the country US with its single distinct ship. -/
theorem claim_C7_witness : top_n_countries sampleData 1 = ["US: 1", ""] := by
  rw [(claim_C7_top_countries sampleData 1).1]
  decide

/-- C8: get_all_countries prints the distinct country keys of the country
grouping in ascending lexicographic order, one per line (followed by the
closing empty line); the printed keys are exactly the countries occurring
in the dataset, without duplicates; and the output does not depend on the
order of the records in the dataset. -/
theorem claim_C8_show_countries (d : List Record) :
    get_all_countries d = sorted_countries d ++ [""]
    ∧ (sorted_countries d).Pairwise (fun a b : String => a ≤ b)
    ∧ (∀ c, c ∈ sorted_countries d ↔ ∃ r ∈ d, r.country = c)
    ∧ (sorted_countries d).Nodup
    ∧ ∀ d', List.Perm d d' → get_all_countries d = get_all_countries d' := by
  have hkeys : ∀ (e : List Record), (analyze_traffic_data_by e .country false).map Prod.fst
      = encounterOrder (e.map Record.country) := fun e => analyze_keys e .country
  have hmemk : ∀ (e : List Record) (c : String),
      c ∈ sorted_countries e ↔ ∃ r ∈ e, r.country = c := by
    intro e c
    unfold sorted_countries
    rw [(List.perm_insertionSort _ _).mem_iff, hkeys e, encounterOrder_mem]
    exact List.mem_map
  have hsorted : ∀ (e : List Record),
      (sorted_countries e).Pairwise (fun a b : String => a ≤ b) := by
    intro e
    exact List.sorted_insertionSort _ _
  have hnodup : ∀ (e : List Record), (sorted_countries e).Nodup := by
    intro e
    have h2 : ((analyze_traffic_data_by e .country false).map Prod.fst).Nodup := by
      rw [hkeys e]
      exact encounterOrder_nodup _
    exact ((List.perm_insertionSort _ _).nodup_iff).mpr h2
  refine ⟨rfl, hsorted d, hmemk d, hnodup d, ?_⟩
  intro d' hperm
  have hp : List.Perm (sorted_countries d) (sorted_countries d') := by
    rw [List.perm_ext_iff_of_nodup (hnodup d) (hnodup d')]
    intro c
    rw [hmemk d c, hmemk d' c]
    constructor
    · rintro ⟨r, hr, hc⟩
      exact ⟨r, hperm.mem_iff.mp hr, hc⟩
    · rintro ⟨r, hr, hc⟩
      exact ⟨r, hperm.mem_iff.mpr hr, hc⟩
  have heq : sorted_countries d = sorted_countries d' :=
    List.eq_of_perm_of_sorted hp (hsorted d) (hsorted d')
  unfold get_all_countries print_iterable
  rw [heq]

/-- A permutation of the sample dataset. -/
def sampleDataPerm : List Record :=
  [sampleRecord "UK" "BBB", sampleRecord "US" "AAA", sampleRecord "US" "AAA"]

/-- Witness for C8: the output on the sample dataset equals the output on a
permutation of it. -/
theorem claim_C8_witness : get_all_countries sampleData = get_all_countries sampleDataPerm :=
  (claim_C8_show_countries sampleData).2.2.2.2 sampleDataPerm (by decide)

/-- C10: on the empty dataset draw_plot_map fails with the statistics error
raised by the mean of an empty sequence, and it produces its map artifact
exactly for non-empty datasets. -/
theorem claim_C10_draw_map_empty (parse : String → ℚ) (d : List Record) :
    draw_plot_map parse ([] : List Record)
        = Except.error "mean requires at least one data point"
    ∧ ((∃ m, draw_plot_map parse d = Except.ok m) ↔ d ≠ []) := by
  constructor
  · rfl
  · cases d with
    | nil =>
      constructor
      · rintro ⟨m, hm⟩
        exact Except.noConfusion hm
      · intro h
        exact absurd rfl h
    | cons r rest =>
      constructor
      · intro _
        exact List.cons_ne_nil r rest
      · intro _
        exact ⟨_, rfl⟩

/-- Witness for C10: at a concrete parse function, the empty dataset gives
the error and the sample dataset gives a map artifact. -/
theorem claim_C10_witness :
    draw_plot_map (fun _ => 0) ([] : List Record)
        = Except.error "mean requires at least one data point"
    ∧ ∃ m, draw_plot_map (fun _ => 0) sampleData = Except.ok m :=
  ⟨(claim_C10_draw_map_empty (fun _ => 0) sampleData).1,
   ((claim_C10_draw_map_empty (fun _ => 0) sampleData).2).mpr (by decide)⟩

end Titanic
